import Mathlib

/- Verification of the markdown-to-ADF converter of src/jira-client.ts.
   The two functions under study, parseInlineFormatting and textToADF, are pure;
   they are embedded here over List Char. The JS regular expressions are embedded
   as explicit scanners with the same alternation order and the same greedy,
   character-class based semantics (each class excludes exactly the character
   that terminates it, so backtracking never changes the outcome). The scanner
   loop is written with an explicit fuel argument so that it is structurally
   recursive; fuel equal to the length of the input always suffices because each
   step consumes at least one character. -/

/-- Character class of the JS regex escape for whitespace and of the trim
    method of JS strings (WhiteSpace plus LineTerminator code points). -/
def jsWhitespace (c : Char) : Bool :=
  c == ' ' || c == '\t' || c == '\n' || c == '\r' || c == '\x0b' || c == '\x0c' ||
  c == '\u00A0' || c == '\u1680' ||
  (decide (0x2000 ≤ c.toNat) && decide (c.toNat ≤ 0x200A)) ||
  c == '\u2028' || c == '\u2029' || c == '\u202F' || c == '\u205F' ||
  c == '\u3000' || c == '\uFEFF'

/-- Character class of the JS regex dot: any character except line terminators. -/
def dotChar (c : Char) : Bool :=
  !(c == '\n' || c == '\r' || c == '\u2028' || c == '\u2029')

/-- JS String.prototype.trim: drop whitespace from both ends. -/
def jsTrim (s : List Char) : List Char :=
  ((s.dropWhile jsWhitespace).reverse.dropWhile jsWhitespace).reverse

/-- JS String.prototype.split with separator a newline: always returns at least
    one (possibly empty) segment. -/
def splitLines : List Char → List (List Char)
  | [] => [[]]
  | c :: rest =>
    if c = '\n' then [] :: splitLines rest
    else
      match splitLines rest with
      | [] => [[c]]
      | l :: ls => (c :: l) :: ls

/-- JS Array.prototype.join with separator a newline. -/
def joinLines : List (List Char) → List Char
  | [] => []
  | [l] => l
  | l :: ls => l ++ '\n' :: joinLines ls

/-- An ADF mark on a text node: strong, em, strike, code, or a link carrying
    exactly one href attribute. -/
inductive Mark where
  | strong
  | em
  | strike
  | code
  | link (href : List Char)
deriving DecidableEq

/-- An ADF text node: its text and its list of marks (an absent marks field in
    the JS object is modelled as the empty list). -/
structure TextRun where
  text : List Char
  marks : List Mark
deriving DecidableEq

/-- Alternative 1 of the combined regex: a link written as a bracketed label
    followed by a parenthesised href, both non-empty, label not containing a
    closing bracket, href not containing a closing parenthesis. -/
def matchLink (s : List Char) : Option (TextRun × List Char) :=
  match s with
  | c :: rest =>
    if c = '[' then
      let label := rest.takeWhile (· != ']')
      if label.isEmpty then none
      else
        match rest.dropWhile (· != ']') with
        | c1 :: c2 :: r2 =>
          if c1 = ']' ∧ c2 = '(' then
            let href := r2.takeWhile (· != ')')
            if href.isEmpty then none
            else
              match r2.dropWhile (· != ')') with
              | c3 :: r4 => if c3 = ')' then some (⟨label, [Mark.link href]⟩, r4) else none
              | [] => none
          else none
        | _ => none
    else none
  | [] => none

/-- Alternative 2: inline code delimited by single backticks; the body may be
    empty and may not contain a backtick. -/
def matchCode (s : List Char) : Option (TextRun × List Char) :=
  match s with
  | c :: rest =>
    if c = '\x60' then
      let body := rest.takeWhile (· != '\x60')
      match rest.dropWhile (· != '\x60') with
      | c1 :: r2 => if c1 = '\x60' then some (⟨body, [Mark.code]⟩, r2) else none
      | [] => none
    else none
  | [] => none

/-- Alternatives 3 to 5: a span delimited on both sides by a doubled character
    d, with a non-empty body not containing d. -/
def matchDouble (d : Char) (m : Mark) (s : List Char) : Option (TextRun × List Char) :=
  match s with
  | a :: b :: rest =>
    if a = d ∧ b = d then
      let body := rest.takeWhile (· != d)
      if body.isEmpty then none
      else
        match rest.dropWhile (· != d) with
        | x :: y :: r2 => if x = d ∧ y = d then some (⟨body, [m]⟩, r2) else none
        | _ => none
    else none
  | _ => none

/-- Alternatives 6 and 7: a span delimited on both sides by a single character
    d, with a non-empty body not containing d. -/
def matchSingle (d : Char) (m : Mark) (s : List Char) : Option (TextRun × List Char) :=
  match s with
  | a :: rest =>
    if a = d then
      let body := rest.takeWhile (· != d)
      if body.isEmpty then none
      else
        match rest.dropWhile (· != d) with
        | x :: r2 => if x = d then some (⟨body, [m]⟩, r2) else none
        | [] => none
    else none
  | [] => none

/-- One attempt of the combined regex at the current position: the seven
    alternatives are tried in the source order (link, code, double asterisk
    bold, double underscore bold, double tilde strikethrough, single asterisk
    italic, single underscore italic); the first that matches wins. -/
def matchInline (s : List Char) : Option (TextRun × List Char) :=
  match matchLink s with
  | some out => some out
  | none =>
    match matchCode s with
    | some out => some out
    | none =>
      match matchDouble '*' Mark.strong s with
      | some out => some out
      | none =>
        match matchDouble '_' Mark.strong s with
        | some out => some out
        | none =>
          match matchDouble '~' Mark.strike s with
          | some out => some out
          | none =>
            match matchSingle '*' Mark.em s with
            | some out => some out
            | none => matchSingle '_' Mark.em s

/-- Emit the plain text accumulated since the previous match, skipping the push
    when it is empty, as the JS code does. -/
def flushPending (pending : List Char) : List TextRun :=
  if pending.isEmpty then [] else [⟨pending, []⟩]

/-- The exec loop of parseInlineFormatting: walk the line left to right; at
    each position try the combined regex; on a match flush the pending plain
    text, emit the matched run and continue after the match; otherwise move one
    character into the pending plain text. Fuel at least the length of the
    input makes the fuel case unreachable. -/
def scanFuel : Nat → List Char → List Char → List TextRun
  | 0, pending, _ => flushPending pending
  | fuel + 1, pending, s =>
    match matchInline s with
    | some (r, rest) => flushPending pending ++ r :: scanFuel fuel [] rest
    | none =>
      match s with
      | [] => flushPending pending
      | c :: s' => scanFuel fuel (pending ++ [c]) s'

/-- parseInlineFormatting of src/jira-client.ts: run the scan; if no run at all
    was produced, return the whole input as one unmarked text node. -/
def parseInlineFormatting (text : List Char) : List TextRun :=
  let result := scanFuel text.length [] text
  if result.isEmpty then [⟨text, []⟩] else result

/-- Concatenation of the text fields of a list of runs. -/
def joinTexts : List TextRun → List Char
  | [] => []
  | r :: rs => r.text ++ joinTexts rs

/-- Whether a run carries a link mark. -/
def isLinkRun (r : TextRun) : Bool :=
  match r.marks with
  | [Mark.link _] => true
  | _ => false

/-- The characters of the source span of a run with its recognised markup
    delimiters removed: for a link the bracket and parenthesis delimiters go
    but the label and the href stay; for every other span only the body stays. -/
def runStripped (r : TextRun) : List Char :=
  match r.marks with
  | [Mark.link href] => r.text ++ href
  | _ => r.text

/-- The input line with the delimiters of every recognised markup span removed
    (the same left-to-right scan as the tokenizer, keeping plain characters and
    each matched span minus its delimiter characters). -/
def stripFuel : Nat → List Char → List Char
  | 0, _ => []
  | fuel + 1, s =>
    match matchInline s with
    | some (r, rest) => runStripped r ++ stripFuel fuel rest
    | none =>
      match s with
      | [] => []
      | c :: s' => c :: stripFuel fuel s'

/-- The line stripped of the recognised markup delimiters. -/
def stripDelims (line : List Char) : List Char :=
  stripFuel line.length line

/-- Whether the scan of the line matches no link span at any position. -/
def noLinkF : Nat → List Char → Bool
  | 0, _ => true
  | fuel + 1, s =>
    match matchInline s with
    | some (r, rest) => !isLinkRun r && noLinkF fuel rest
    | none =>
      match s with
      | [] => true
      | _ :: s' => noLinkF fuel s'

/-- Whether the tokenizer matches no link span anywhere in the line. -/
def noLinkScan (line : List Char) : Bool :=
  noLinkF line.length line

/-- An ADF block node as built by textToADF. A codeBlock with empty language
    models the JS object with empty attrs; list items are the inline content of
    the single paragraph inside each listItem wrapper. -/
inductive ADFBlock where
  | paragraph (inline : List TextRun)
  | heading (level : Nat) (inline : List TextRun)
  | bulletList (items : List (List TextRun))
  | orderedList (items : List (List TextRun))
  | codeBlock (language : List Char) (code : List Char)
deriving DecidableEq

/-- The mutable state of the textToADF loop. -/
structure ConvState where
  content : List ADFBlock
  inCodeBlock : Bool
  codeBlockLines : List (List Char)
  codeLanguage : List Char
deriving DecidableEq

/-- The heading regex: one to six leading hash characters, then required
    whitespace, then at least one character, anchored at both ends, with the
    JS dot excluding line terminators. Greediness resolves exactly as in JS:
    all leading hashes are taken; the whitespace run is maximal unless the rest
    of the line is all whitespace, in which case the last whitespace character
    becomes the content when it is matched by the dot. -/
def headingMatch (line : List Char) : Option (Nat × List Char) :=
  let k := (line.takeWhile (· == '#')).length
  if 1 ≤ k ∧ k ≤ 6 then
    let rest := line.drop k
    let ws := rest.takeWhile jsWhitespace
    if ws.isEmpty then none
    else
      let body := rest.drop ws.length
      if body.isEmpty then
        match rest.getLast? with
        | some c => if 2 ≤ ws.length ∧ dotChar c then some (k, [c]) else none
        | none => none
      else
        if body.all dotChar then some (k, body) else none
  else none

/-- The bullet regex on the trimmed line: a dash, asterisk or bullet character
    followed by one whitespace character. -/
def isBulletLine (t : List Char) : Bool :=
  match t with
  | c :: d :: _ => (c == '-' || c == '*' || c == '•') && jsWhitespace d
  | _ => false

/-- The ordered item regex on the trimmed line: one or more digits, a period,
    one whitespace character; returns the line with that prefix removed. -/
def orderedMatch (t : List Char) : Option (List Char) :=
  let ds := t.takeWhile Char.isDigit
  if ds.isEmpty then none
  else
    match t.drop ds.length with
    | c :: w :: rest => if c = '.' ∧ jsWhitespace w then some rest else none
    | _ => none

/-- Append a bullet item: extend the immediately preceding block when it is a
    bulletList, otherwise start a new bulletList with the single item. -/
def appendBullet (content : List ADFBlock) (item : List TextRun) : List ADFBlock :=
  match content.getLast? with
  | some (ADFBlock.bulletList items) =>
    content.dropLast ++ [ADFBlock.bulletList (items ++ [item])]
  | _ => content ++ [ADFBlock.bulletList [item]]

/-- Append an ordered item: extend the immediately preceding block when it is
    an orderedList, otherwise start a new orderedList with the single item. -/
def appendOrdered (content : List ADFBlock) (item : List TextRun) : List ADFBlock :=
  match content.getLast? with
  | some (ADFBlock.orderedList items) =>
    content.dropLast ++ [ADFBlock.orderedList (items ++ [item])]
  | _ => content ++ [ADFBlock.orderedList [item]]

/-- One iteration of the textToADF loop, classifying a single line. -/
def stepLine (st : ConvState) (line : List Char) : ConvState :=
  let t := jsTrim line
  if t.take 3 = "```".toList then
    if st.inCodeBlock then
      { content := st.content ++
          [ADFBlock.codeBlock st.codeLanguage (joinLines st.codeBlockLines)],
        inCodeBlock := false, codeBlockLines := [], codeLanguage := [] }
    else
      { st with inCodeBlock := true, codeLanguage := jsTrim (t.drop 3),
                codeBlockLines := [] }
  else if st.inCodeBlock then
    { st with codeBlockLines := st.codeBlockLines ++ [line] }
  else if t.isEmpty then st
  else
    match headingMatch line with
    | some (lvl, body) =>
      { st with content := st.content ++
          [ADFBlock.heading lvl (parseInlineFormatting body)] }
    | none =>
      if isBulletLine t then
        { st with content := appendBullet st.content (parseInlineFormatting (t.drop 2)) }
      else
        match orderedMatch t with
        | some body =>
          { st with content := appendOrdered st.content (parseInlineFormatting body) }
        | none =>
          { st with content := st.content ++ [ADFBlock.paragraph (parseInlineFormatting line)] }

/-- The initial state of the textToADF loop. -/
def initState : ConvState := ⟨[], false, [], []⟩

/-- The textToADF loop over all lines. -/
def processLines : ConvState → List (List Char) → ConvState
  | st, [] => st
  | st, l :: ls => processLines (stepLine st l) ls

/-- The block sequence after the loop and after the unclosed code block flush:
    the buffered lines are emitted as a final codeBlock only when the buffer is
    non-empty. -/
def convertContent (text : List Char) : List ADFBlock :=
  let st := processLines initState (splitLines text)
  if st.inCodeBlock && !st.codeBlockLines.isEmpty then
    st.content ++ [ADFBlock.codeBlock st.codeLanguage (joinLines st.codeBlockLines)]
  else st.content

/-- The ADF document wrapper: type doc, version 1, and the content. -/
structure ADFDoc where
  version : Nat
  content : List ADFBlock
deriving DecidableEq

/-- textToADF of src/jira-client.ts: the accumulated blocks, or one empty
    paragraph when no block was produced. -/
def textToADF (text : List Char) : ADFDoc :=
  ⟨1, if (convertContent text).isEmpty then [ADFBlock.paragraph []] else convertContent text⟩

theorem matchLink_marks (s : List Char) (r : TextRun) (rest : List Char)
    (h : matchLink s = some (r, rest)) : ∃ m, r.marks = [m] := by
  unfold matchLink at h
  repeat' split at h
  all_goals simp_all
  all_goals obtain ⟨-, -, hr, -⟩ := h
  all_goals exact ⟨_, by rw [← hr]⟩

theorem matchCode_marks (s : List Char) (r : TextRun) (rest : List Char)
    (h : matchCode s = some (r, rest)) : ∃ m, r.marks = [m] := by
  unfold matchCode at h
  repeat' split at h
  all_goals simp_all
  all_goals obtain ⟨hr, -⟩ := h
  all_goals exact ⟨_, by rw [← hr]⟩

theorem matchDouble_marks (d : Char) (m : Mark) (s : List Char) (r : TextRun) (rest : List Char)
    (h : matchDouble d m s = some (r, rest)) : ∃ m, r.marks = [m] := by
  unfold matchDouble at h
  repeat' split at h
  all_goals simp_all
  all_goals obtain ⟨-, hr, -⟩ := h
  all_goals exact ⟨_, by rw [← hr]⟩

theorem matchSingle_marks (d : Char) (m : Mark) (s : List Char) (r : TextRun) (rest : List Char)
    (h : matchSingle d m s = some (r, rest)) : ∃ m, r.marks = [m] := by
  unfold matchSingle at h
  repeat' split at h
  all_goals simp_all
  all_goals obtain ⟨-, hr, -⟩ := h
  all_goals exact ⟨_, by rw [← hr]⟩

theorem matchInline_marks (s : List Char) (r : TextRun) (rest : List Char)
    (h : matchInline s = some (r, rest)) : ∃ m, r.marks = [m] := by
  unfold matchInline at h
  split at h
  case _ out heq => cases h; exact matchLink_marks _ _ _ heq
  case _ =>
    split at h
    case _ out heq => cases h; exact matchCode_marks _ _ _ heq
    case _ =>
      split at h
      case _ out heq => cases h; exact matchDouble_marks _ _ _ _ _ heq
      case _ =>
        split at h
        case _ out heq => cases h; exact matchDouble_marks _ _ _ _ _ heq
        case _ =>
          split at h
          case _ out heq => cases h; exact matchDouble_marks _ _ _ _ _ heq
          case _ =>
            split at h
            case _ out heq => cases h; exact matchSingle_marks _ _ _ _ _ heq
            case _ => exact matchSingle_marks _ _ _ _ _ h

theorem flushPending_marks (p : List Char) (r : TextRun)
    (h : r ∈ flushPending p) : r.marks = [] := by
  unfold flushPending at h
  split at h
  · cases h
  · rw [List.mem_singleton] at h
    rw [h]

theorem joinTexts_append (a b : List TextRun) :
    joinTexts (a ++ b) = joinTexts a ++ joinTexts b := by
  induction a with
  | nil => rfl
  | cons r rs ih => simp [joinTexts, ih]

theorem joinTexts_flushPending (p : List Char) : joinTexts (flushPending p) = p := by
  unfold flushPending
  split
  case isTrue h => simp_all [List.isEmpty_iff, joinTexts]
  case isFalse h => simp [joinTexts]

theorem flushPending_eq_nil (p : List Char) (h : flushPending p = []) : p = [] := by
  unfold flushPending at h
  split at h
  · simp_all [List.isEmpty_iff]
  · cases h

theorem scanFuel_marks (fuel : Nat) :
    ∀ pending s r, r ∈ scanFuel fuel pending s → r.marks.length ≤ 1 := by
  induction fuel with
  | zero =>
    intro pending s r hr
    rw [scanFuel] at hr
    rw [flushPending_marks _ _ hr]
    decide
  | succ f ih =>
    intro pending s r hr
    rcases hmatch : matchInline s with _ | ⟨r0, rest⟩
    · cases s with
      | nil =>
        simp only [scanFuel, hmatch] at hr
        rw [flushPending_marks _ _ hr]
        decide
      | cons c s' =>
        simp only [scanFuel, hmatch] at hr
        exact ih _ _ _ hr
    · simp only [scanFuel, hmatch] at hr
      rw [List.mem_append] at hr
      rcases hr with hr | hr
      · rw [flushPending_marks _ _ hr]; decide
      · rcases List.mem_cons.mp hr with hr | hr
        · obtain ⟨m, hm⟩ := matchInline_marks _ _ _ hmatch
          rw [hr, hm]
          simp
        · exact ih _ _ _ hr

theorem parseInlineFormatting_marks (line : List Char) (r : TextRun)
    (h : r ∈ parseInlineFormatting line) : r.marks.length ≤ 1 := by
  simp only [parseInlineFormatting] at h
  split at h
  · rw [List.mem_singleton] at h
    rw [h]
    simp
  · exact scanFuel_marks _ _ _ _ h

theorem matchInline_nil : matchInline [] = none := rfl

theorem scanFuel_nomatch (fuel : Nat) :
    ∀ pending s, s.length ≤ fuel → (∀ n < s.length, matchInline (s.drop n) = none) →
      scanFuel fuel pending s = flushPending (pending ++ s) := by
  induction fuel with
  | zero =>
    intro pending s hlen _
    have hs : s = [] := List.eq_nil_of_length_eq_zero (Nat.le_zero.mp hlen)
    rw [hs, List.append_nil, scanFuel]
  | succ f ih =>
    intro pending s hlen hnone
    cases s with
    | nil =>
      simp only [scanFuel, matchInline_nil, List.append_nil]
    | cons c s' =>
      have h0 : matchInline (c :: s') = none := by
        have := hnone 0 (by simp)
        simpa using this
      simp only [scanFuel, h0]
      have : scanFuel f (pending ++ [c]) s' = flushPending ((pending ++ [c]) ++ s') := by
        apply ih
        · simpa using hlen
        · intro n hn
          have := hnone (n + 1) (by simpa using Nat.succ_lt_succ hn)
          simpa using this
      rw [this, List.append_assoc, List.singleton_append]

theorem joinTexts_singleton (t : List Char) : joinTexts [⟨t, []⟩] = t := by
  simp [joinTexts]

theorem scanFuel_eq_nil (fuel : Nat) :
    ∀ pending s, s.length ≤ fuel → scanFuel fuel pending s = [] →
      pending = [] ∧ s = [] := by
  induction fuel with
  | zero =>
    intro pending s hlen h
    have hs : s = [] := List.eq_nil_of_length_eq_zero (Nat.le_zero.mp hlen)
    rw [scanFuel] at h
    exact ⟨flushPending_eq_nil _ h, hs⟩
  | succ f ih =>
    intro pending s hlen h
    rcases hmatch : matchInline s with _ | ⟨r0, rest⟩
    · cases s with
      | nil =>
        simp only [scanFuel, hmatch] at h
        exact ⟨flushPending_eq_nil _ h, rfl⟩
      | cons c s' =>
        simp only [scanFuel, hmatch] at h
        obtain ⟨hp, _⟩ := ih _ _ (by simpa using hlen) h
        exact absurd hp (by simp)
    · simp only [scanFuel, hmatch] at h
      exact absurd h (by simp)

theorem scanFuel_join (fuel : Nat) :
    ∀ pending s, noLinkF fuel s = true →
      joinTexts (scanFuel fuel pending s) = pending ++ stripFuel fuel s := by
  induction fuel with
  | zero =>
    intro pending s _
    rw [scanFuel, stripFuel, joinTexts_flushPending, List.append_nil]
  | succ f ih =>
    intro pending s hnl
    rcases hmatch : matchInline s with _ | ⟨r0, rest⟩
    · cases s with
      | nil =>
        simp only [scanFuel, stripFuel, hmatch]
        rw [joinTexts_flushPending, List.append_nil]
      | cons c s' =>
        simp only [scanFuel, stripFuel, hmatch]
        simp only [noLinkF, hmatch] at hnl
        rw [ih _ _ hnl, List.append_assoc, List.singleton_append]
    · simp only [scanFuel, stripFuel, hmatch]
      simp only [noLinkF, hmatch, Bool.and_eq_true, Bool.not_eq_true'] at hnl
      obtain ⟨hlink, hnl'⟩ := hnl
      rw [joinTexts_append, joinTexts_flushPending]
      simp only [joinTexts]
      rw [ih _ _ hnl']
      have hstrip : runStripped r0 = r0.text := by
        unfold runStripped
        split
        case _ href heq =>
          unfold isLinkRun at hlink
          rw [heq] at hlink
          simp at hlink
        case _ => rfl
      rw [hstrip]
      simp [List.append_assoc]

theorem parse_nomatch (line : List Char)
    (h : ∀ n < line.length, matchInline (line.drop n) = none) :
    parseInlineFormatting line = [⟨line, []⟩] := by
  simp only [parseInlineFormatting]
  rw [scanFuel_nomatch _ _ _ (Nat.le_refl _) h]
  simp only [List.nil_append]
  unfold flushPending
  split
  case isTrue hEmpty =>
    rw [List.isEmpty_iff.mp hEmpty]
    simp
  case isFalse hEmpty =>
    simp [hEmpty]

theorem parse_join (line : List Char) (h : noLinkScan line = true) :
    joinTexts (parseInlineFormatting line) = stripDelims line := by
  simp only [parseInlineFormatting, stripDelims]
  split
  case isTrue hEmpty =>
    obtain ⟨-, hnil⟩ := scanFuel_eq_nil _ _ _ (Nat.le_refl _) (List.isEmpty_iff.mp hEmpty)
    rw [hnil]
    simp [joinTexts, stripFuel]
  case isFalse hEmpty =>
    have := scanFuel_join line.length [] line h
    simpa using this

theorem dropWhile_append_singleton (p : Char → Bool) (xs : List Char) (c : Char)
    (hc : p c = false) : List.dropWhile p (xs ++ [c]) = List.dropWhile p xs ++ [c] := by
  induction xs with
  | nil => simp [List.dropWhile, hc]
  | cons x xs ih =>
    by_cases hx : p x
    · simp [List.dropWhile, hx, ih]
    · simp [List.dropWhile, hx]

theorem jsTrim_cons (c : Char) (rest : List Char) (hc : jsWhitespace c = false) :
    jsTrim (c :: rest) = c :: (rest.reverse.dropWhile jsWhitespace).reverse := by
  unfold jsTrim
  rw [List.dropWhile_cons_of_neg (by simp [hc])]
  rw [List.reverse_cons, dropWhile_append_singleton _ _ _ hc]
  simp

theorem headingMatch_head (line : List Char) (out : Nat × List Char)
    (h : headingMatch line = some out) : ∃ t, line = '#' :: t := by
  simp only [headingMatch] at h
  split at h
  case isTrue hk =>
    obtain ⟨hk1, -⟩ := hk
    cases line with
    | nil => simp at hk1
    | cons c t =>
      by_cases hc : c == '#'
      · exact ⟨t, by rw [(by simpa using hc : c = '#')]⟩
      · rw [List.takeWhile_cons_of_neg (by simpa using hc)] at hk1
        simp at hk1
  case isFalse => cases h

theorem isBulletLine_shape (t : List Char) (h : isBulletLine t = true) :
    ∃ c d t', t = c :: d :: t' ∧ (c == '-' || c == '*' || c == '•') = true ∧
      jsWhitespace d = true := by
  cases t with
  | nil => cases h
  | cons c rest =>
    cases rest with
    | nil => cases h
    | cons d t' =>
      simp only [isBulletLine, Bool.and_eq_true] at h
      exact ⟨c, d, t', rfl, h.1, h.2⟩

theorem stepLine_bullet (st : ConvState) (line : List Char)
    (h1 : st.inCodeBlock = false) (h2 : isBulletLine (jsTrim line) = true) :
    stepLine st line =
      { st with content := appendBullet st.content (parseInlineFormatting ((jsTrim line).drop 2)) } := by
  obtain ⟨c, d, t', ht, hc, hd⟩ := isBulletLine_shape _ h2
  have hfence : ¬((jsTrim line).take 3 = "```".toList) := by
    rw [ht]
    intro heq
    rw [show "```".toList = ['\x60', '\x60', '\x60'] from rfl] at heq
    rw [List.take_succ_cons, List.take_succ_cons] at heq
    injection heq with h1c heq2
    rw [h1c] at hc
    exact absurd hc (by decide)
  have hblank : (jsTrim line).isEmpty = false := by rw [ht]; rfl
  have hhead : headingMatch line = none := by
    cases hh : headingMatch line with
    | none => rfl
    | some out =>
      exfalso
      obtain ⟨t2, hline⟩ := headingMatch_head _ _ hh
      have htrim : jsTrim line = '#' :: (t2.reverse.dropWhile jsWhitespace).reverse := by
        rw [hline]
        exact jsTrim_cons _ _ (by decide)
      rw [ht] at htrim
      injection htrim with hc' hrest
      rw [hc'] at hc
      exact absurd hc (by decide)
  simp only [stepLine, if_neg hfence, h1, Bool.false_eq_true, if_false, hblank, hhead, h2,
    if_true]

theorem stepLine_codeOpen (st : ConvState) (line : List Char)
    (h1 : st.inCodeBlock = false) (h2 : (jsTrim line).take 3 = "```".toList) :
    stepLine st line =
      { st with inCodeBlock := true, codeLanguage := jsTrim ((jsTrim line).drop 3),
                codeBlockLines := [] } := by
  simp only [stepLine, if_pos h2, h1, Bool.false_eq_true, if_false]

theorem stepLine_codeLine (st : ConvState) (line : List Char)
    (h1 : st.inCodeBlock = true) (h2 : ¬((jsTrim line).take 3 = "```".toList)) :
    stepLine st line = { st with codeBlockLines := st.codeBlockLines ++ [line] } := by
  simp only [stepLine, if_neg h2, h1, if_true]

theorem stepLine_codeClose (st : ConvState) (line : List Char)
    (h1 : st.inCodeBlock = true) (h2 : (jsTrim line).take 3 = "```".toList) :
    stepLine st line =
      { content := st.content ++
          [ADFBlock.codeBlock st.codeLanguage (joinLines st.codeBlockLines)],
        inCodeBlock := false, codeBlockLines := [], codeLanguage := [] } := by
  simp only [stepLine, if_pos h2, h1, if_true]

theorem stepLine_blank (st : ConvState) (line : List Char)
    (h1 : st.inCodeBlock = false) (h2 : jsTrim line = []) :
    stepLine st line = st := by
  have hfence : ¬((jsTrim line).take 3 = "```".toList) := by
    rw [h2]
    decide
  have hblank : (jsTrim line).isEmpty = true := by rw [h2]; rfl
  simp only [stepLine, if_neg hfence, h1, Bool.false_eq_true, if_false, hblank, if_true]

theorem stepLine_heading (st : ConvState) (line : List Char) (lvl : Nat) (body : List Char)
    (h1 : st.inCodeBlock = false) (h2 : headingMatch line = some (lvl, body)) :
    stepLine st line =
      { st with content := st.content ++ [ADFBlock.heading lvl (parseInlineFormatting body)] } := by
  obtain ⟨t2, hline⟩ := headingMatch_head _ _ h2
  have htrim : jsTrim line = '#' :: (t2.reverse.dropWhile jsWhitespace).reverse := by
    rw [hline]
    exact jsTrim_cons _ _ (by decide)
  have hfence : ¬((jsTrim line).take 3 = "```".toList) := by
    rw [htrim]
    intro heq
    rw [show "```".toList = ['\x60', '\x60', '\x60'] from rfl] at heq
    rw [List.take_succ_cons] at heq
    injection heq with h1c heq2
    exact absurd h1c (by decide)
  have hblank : (jsTrim line).isEmpty = false := by rw [htrim]; rfl
  simp only [stepLine, if_neg hfence, h1, Bool.false_eq_true, if_false, hblank, h2, if_true]

theorem headingMatch_level (line : List Char) (lvl : Nat) (body : List Char)
    (h : headingMatch line = some (lvl, body)) :
    lvl = (line.takeWhile (· == '#')).length ∧ 1 ≤ lvl ∧ lvl ≤ 6 := by
  simp only [headingMatch] at h
  split at h
  case isTrue hk =>
    have hl : lvl = (line.takeWhile (· == '#')).length := by
      repeat' split at h
      all_goals simp_all
    exact ⟨hl, hl ▸ hk.1, hl ▸ hk.2⟩
  case isFalse => cases h

theorem convert_nonempty (s : List Char) :
    (textToADF s).content ≠ [] ∧
      (convertContent s = [] → (textToADF s).content = [ADFBlock.paragraph []]) := by
  simp only [textToADF]
  constructor
  · split
    case isTrue h => simp
    case isFalse h =>
      intro hc
      exact h (by rw [hc]; rfl)
  · intro hc
    rw [if_pos (by rw [hc]; rfl)]

theorem convert_unterminated (s : List Char)
    (h1 : (processLines initState (splitLines s)).inCodeBlock = true)
    (h2 : (processLines initState (splitLines s)).codeBlockLines ≠ []) :
    (textToADF s).content =
      (processLines initState (splitLines s)).content ++
        [ADFBlock.codeBlock (processLines initState (splitLines s)).codeLanguage
          (joinLines (processLines initState (splitLines s)).codeBlockLines)] := by
  have hcc : convertContent s =
      (processLines initState (splitLines s)).content ++
        [ADFBlock.codeBlock (processLines initState (splitLines s)).codeLanguage
          (joinLines (processLines initState (splitLines s)).codeBlockLines)] := by
    simp only [convertContent]
    rw [if_pos (by simp [h1, h2])]
  simp only [textToADF]
  rw [if_neg (by simp [hcc])]
  exact hcc

theorem convert_emptyBuffer (s : List Char)
    (_h1 : (processLines initState (splitLines s)).inCodeBlock = true)
    (h2 : (processLines initState (splitLines s)).codeBlockLines = []) :
    convertContent s = (processLines initState (splitLines s)).content ∧
      ((processLines initState (splitLines s)).content = [] →
        (textToADF s).content = [ADFBlock.paragraph []]) := by
  have hcc : convertContent s = (processLines initState (splitLines s)).content := by
    simp only [convertContent]
    rw [if_neg (by simp [h2])]
  refine ⟨hcc, fun hc => ?_⟩
  simp only [textToADF]
  rw [if_pos (by rw [hcc, hc]; rfl)]

theorem matchInline_priority1 (s : List Char) (out : TextRun × List Char)
    (h : matchLink s = some out) : matchInline s = some out := by
  simp only [matchInline, h]

theorem matchInline_priority2 (s : List Char) (out : TextRun × List Char)
    (h1 : matchLink s = none) (h : matchCode s = some out) : matchInline s = some out := by
  simp only [matchInline, h1, h]

theorem matchInline_priority3 (s : List Char) (out : TextRun × List Char)
    (h1 : matchLink s = none) (h2 : matchCode s = none)
    (h : matchDouble '*' Mark.strong s = some out) : matchInline s = some out := by
  simp only [matchInline, h1, h2, h]

theorem matchInline_priority4 (s : List Char) (out : TextRun × List Char)
    (h1 : matchLink s = none) (h2 : matchCode s = none)
    (h3 : matchDouble '*' Mark.strong s = none)
    (h : matchDouble '_' Mark.strong s = some out) : matchInline s = some out := by
  simp only [matchInline, h1, h2, h3, h]

theorem matchInline_priority5 (s : List Char) (out : TextRun × List Char)
    (h1 : matchLink s = none) (h2 : matchCode s = none)
    (h3 : matchDouble '*' Mark.strong s = none) (h4 : matchDouble '_' Mark.strong s = none)
    (h : matchDouble '~' Mark.strike s = some out) : matchInline s = some out := by
  simp only [matchInline, h1, h2, h3, h4, h]

theorem matchInline_priority6 (s : List Char) (out : TextRun × List Char)
    (h1 : matchLink s = none) (h2 : matchCode s = none)
    (h3 : matchDouble '*' Mark.strong s = none) (h4 : matchDouble '_' Mark.strong s = none)
    (h5 : matchDouble '~' Mark.strike s = none)
    (h : matchSingle '*' Mark.em s = some out) : matchInline s = some out := by
  simp only [matchInline, h1, h2, h3, h4, h5, h]

theorem matchInline_priority7 (s : List Char)
    (h1 : matchLink s = none) (h2 : matchCode s = none)
    (h3 : matchDouble '*' Mark.strong s = none) (h4 : matchDouble '_' Mark.strong s = none)
    (h5 : matchDouble '~' Mark.strike s = none) (h6 : matchSingle '*' Mark.em s = none) :
    matchInline s = matchSingle '_' Mark.em s := by
  simp only [matchInline, h1, h2, h3, h4, h5, h6]

theorem parse_single_mark (line : List Char) (r : TextRun) (hr : r ∈ parseInlineFormatting line) :
    r.marks = [] ∨ ∃ m, r.marks = [m] := by
  have h := parseInlineFormatting_marks line r hr
  cases hm : r.marks with
  | nil => exact Or.inl rfl
  | cons m tl =>
    cases tl with
    | nil => exact Or.inr ⟨m, rfl⟩
    | cons m2 tl2 =>
      rw [hm] at h
      simp at h

/-- C1: for every input string, convert succeeds and returns a non-empty block
    sequence; whenever processing all lines (including the end-of-input flush)
    leaves the accumulator empty, the resulting document is exactly one
    paragraph block with empty inline content. -/
theorem claim_C1 (s : List Char) :
    (textToADF s).content ≠ [] ∧
      (convertContent s = [] → (textToADF s).content = [ADFBlock.paragraph []]) :=
  convert_nonempty s

theorem claim_C1_witness :
    (textToADF ("".toList)).content = [ADFBlock.paragraph []] :=
  (claim_C1 ("".toList)).2 (by decide)

/-- C2, counterexample: the input consisting of a single opening fence ends
    while still inside an open code block, yet convert emits no codeBlock node
    at all (the document is the single empty paragraph), refuting the claim
    that every input ending inside an open code block yields a final codeBlock. -/
theorem claim_C2_counterexample :
    (processLines initState (splitLines ("```".toList))).inCodeBlock = true ∧
      (processLines initState (splitLines ("```".toList))).codeBlockLines = [] ∧
      (textToADF ("```".toList)).content = [ADFBlock.paragraph []] := by
  decide

/-- C2, amended: for every input string that ends while still inside an open
    code block with at least one buffered line, convert appends the buffered
    lines, joined by newlines, as a final codeBlock node with the recorded
    language, without raising an error (with an empty buffer no codeBlock is
    appended). In particular convert of an unterminated fence followed by one
    line x returns one codeBlock with code x. -/
theorem claim_C2 (s : List Char)
    (h1 : (processLines initState (splitLines s)).inCodeBlock = true)
    (h2 : (processLines initState (splitLines s)).codeBlockLines ≠ []) :
    (textToADF s).content =
      (processLines initState (splitLines s)).content ++
        [ADFBlock.codeBlock (processLines initState (splitLines s)).codeLanguage
          (joinLines (processLines initState (splitLines s)).codeBlockLines)] :=
  convert_unterminated s h1 h2

theorem claim_C2_witness :
    (textToADF ("```\nx".toList)).content = [ADFBlock.codeBlock [] ("x".toList)] :=
  (claim_C2 ("```\nx".toList) (by decide) (by decide)).trans (by decide)

/-- C3, counterexample: for the line consisting of one link, the concatenated
    text fields give only the label, while the line stripped of the recognised
    markup delimiters still contains the href, so the round-trip claim fails
    on lines containing links. -/
theorem claim_C3_counterexample :
    joinTexts (parseInlineFormatting ("[go](u)".toList)) = "go".toList ∧
      stripDelims ("[go](u)".toList) = "gou".toList ∧
      joinTexts (parseInlineFormatting ("[go](u)".toList)) ≠ stripDelims ("[go](u)".toList) := by
  decide

/-- C3, amended: for every line in which the tokenizer matches no link span,
    concatenating the text fields of the produced TextRuns reproduces the
    original line stripped of the recognised markup delimiters (for lines with
    link spans the href and its parentheses are additionally dropped, keeping
    only the label). -/
theorem claim_C3 (line : List Char) (h : noLinkScan line = true) :
    joinTexts (parseInlineFormatting line) = stripDelims line :=
  parse_join line h

theorem claim_C3_witness :
    noLinkScan ("a **b** `c`".toList) = true ∧
      joinTexts (parseInlineFormatting ("a **b** `c`".toList)) =
        stripDelims ("a **b** `c`".toList) :=
  ⟨by decide, claim_C3 ("a **b** `c`".toList) (by decide)⟩

/-- C4: for every line in which no inline pattern matches at any position,
    the tokenizer never fails and returns exactly one TextRun with no marks
    whose text is the whole line unchanged. -/
theorem claim_C4 (line : List Char)
    (h : ∀ n < line.length, matchInline (line.drop n) = none) :
    parseInlineFormatting line = [⟨line, []⟩] :=
  parse_nomatch line h

theorem claim_C4_witness :
    (∀ n < ("a*b".toList).length, matchInline (("a*b".toList).drop n) = none) ∧
      parseInlineFormatting ("a*b".toList) = [⟨"a*b".toList, []⟩] :=
  ⟨by decide, claim_C4 ("a*b".toList) (by decide)⟩

/-- C5: for every bullet-item line processed outside a code block, convert
    strips the two-character marker prefix from the trimmed line, tokenizes
    the remainder, and appends a new item to the immediately preceding emitted
    block when that block is a bulletList, otherwise starts a new bulletList
    with one item; hence two adjacent bullet lines form one bulletList with
    the items in order, and bullet lines separated by a different block type
    start a new list. -/
theorem claim_C5 :
    (∀ (st : ConvState) (line : List Char), st.inCodeBlock = false →
        isBulletLine (jsTrim line) = true →
        stepLine st line =
          { st with content :=
              appendBullet st.content (parseInlineFormatting ((jsTrim line).drop 2)) }) ∧
      (textToADF ("- a\n- b".toList)).content =
        [ADFBlock.bulletList [[⟨"a".toList, []⟩], [⟨"b".toList, []⟩]]] ∧
      (textToADF ("- a\nx\n- b".toList)).content =
        [ADFBlock.bulletList [[⟨"a".toList, []⟩]], ADFBlock.paragraph [⟨"x".toList, []⟩],
          ADFBlock.bulletList [[⟨"b".toList, []⟩]]] :=
  ⟨fun st line h1 h2 => stepLine_bullet st line h1 h2, by decide, by decide⟩

theorem claim_C5_witness :
    stepLine (⟨[], false, [], []⟩ : ConvState) ("- hi".toList) =
      { (⟨[], false, [], []⟩ : ConvState) with content :=
          (appendBullet [] (parseInlineFormatting ((jsTrim ("- hi".toList)).drop 2))) } :=
  claim_C5.1 (⟨[], false, [], []⟩ : ConvState) ("- hi".toList) rfl (by decide)

/-- C6: a fence line outside a code block enters one, recording the trailing
    text of the fence line as the language tag and resetting the buffer; a
    non-fence line inside a code block is appended verbatim to the buffer with
    no inline tokenization; a fence line inside a code block emits one
    codeBlock whose code is the buffered lines joined by newlines with the
    recorded language; in particular a properly fenced js region converts to
    one codeBlock with language js and the inner line as code. -/
theorem claim_C6 :
    (∀ (st : ConvState) (line : List Char), st.inCodeBlock = false →
        (jsTrim line).take 3 = "```".toList →
        stepLine st line =
          { st with inCodeBlock := true, codeLanguage := jsTrim ((jsTrim line).drop 3),
                    codeBlockLines := [] }) ∧
      (∀ (st : ConvState) (line : List Char), st.inCodeBlock = true →
        ¬((jsTrim line).take 3 = "```".toList) →
        stepLine st line = { st with codeBlockLines := st.codeBlockLines ++ [line] }) ∧
      (∀ (st : ConvState) (line : List Char), st.inCodeBlock = true →
        (jsTrim line).take 3 = "```".toList →
        stepLine st line =
          { content := st.content ++
              [ADFBlock.codeBlock st.codeLanguage (joinLines st.codeBlockLines)],
            inCodeBlock := false, codeBlockLines := [], codeLanguage := [] }) ∧
      (textToADF ("```js\ncode()\n```".toList)).content =
        [ADFBlock.codeBlock ("js".toList) ("code()".toList)] :=
  ⟨fun st line h1 h2 => stepLine_codeOpen st line h1 h2,
   fun st line h1 h2 => stepLine_codeLine st line h1 h2,
   fun st line h1 h2 => stepLine_codeClose st line h1 h2,
   by decide⟩

theorem claim_C6_witness :
    stepLine (⟨[], false, [], []⟩ : ConvState) ("```js".toList) =
      { (⟨[], false, [], []⟩ : ConvState) with
        inCodeBlock := true,
        codeLanguage := jsTrim ((jsTrim ("```js".toList)).drop 3),
        codeBlockLines := [] } ∧
    stepLine (⟨[], true, [], "js".toList⟩ : ConvState) ("x".toList) =
      { (⟨[], true, [], "js".toList⟩ : ConvState) with
          codeBlockLines := ([] ++ ["x".toList]) } ∧
    stepLine (⟨[], true, ["x".toList], "js".toList⟩ : ConvState) ("```".toList) =
      { content := [] ++
          [ADFBlock.codeBlock ("js".toList) (joinLines ["x".toList])],
        inCodeBlock := false, codeBlockLines := [], codeLanguage := [] } :=
  ⟨claim_C6.1 (⟨[], false, [], []⟩ : ConvState) ("```js".toList) rfl (by decide),
   claim_C6.2.1 (⟨[], true, [], "js".toList⟩ : ConvState) ("x".toList) rfl (by decide),
   claim_C6.2.2.1 (⟨[], true, ["x".toList], "js".toList⟩ : ConvState) ("```".toList) rfl
     (by decide)⟩

/-- C7: a heading line of one to six hash characters followed by required
    whitespace and content emits a heading node whose level is the count of
    the hash characters and whose inline content is the tokenized content,
    while a blank line outside a code block emits no block at all; in
    particular a heading, a blank line and a body line convert to exactly two
    blocks, a level one heading then a paragraph. -/
theorem claim_C7 :
    (∀ (st : ConvState) (line : List Char) (lvl : Nat) (body : List Char),
        st.inCodeBlock = false → headingMatch line = some (lvl, body) →
        stepLine st line =
          { st with content :=
              st.content ++ [ADFBlock.heading lvl (parseInlineFormatting body)] }) ∧
      (∀ (line : List Char) (lvl : Nat) (body : List Char),
        headingMatch line = some (lvl, body) →
        lvl = (line.takeWhile (· == '#')).length ∧ 1 ≤ lvl ∧ lvl ≤ 6) ∧
      (∀ (st : ConvState) (line : List Char), st.inCodeBlock = false →
        jsTrim line = [] → stepLine st line = st) ∧
      (textToADF ("# Title\n\nBody".toList)).content =
        [ADFBlock.heading 1 [⟨"Title".toList, []⟩], ADFBlock.paragraph [⟨"Body".toList, []⟩]] :=
  ⟨fun st line lvl body h1 h2 => stepLine_heading st line lvl body h1 h2,
   fun line lvl body h => headingMatch_level line lvl body h,
   fun st line h1 h2 => stepLine_blank st line h1 h2,
   by decide⟩

theorem claim_C7_witness :
    stepLine (⟨[], false, [], []⟩ : ConvState) ("# T".toList) =
      { (⟨[], false, [], []⟩ : ConvState) with content :=
          ([] ++ [ADFBlock.heading 1 (parseInlineFormatting ("T".toList))]) } ∧
    (1 = (("# T".toList).takeWhile (· == '#')).length ∧ 1 ≤ 1 ∧ 1 ≤ 6) ∧
    stepLine (⟨[], false, [], []⟩ : ConvState) ("  ".toList) = (⟨[], false, [], []⟩ : ConvState) :=
  ⟨claim_C7.1 (⟨[], false, [], []⟩ : ConvState) ("# T".toList) 1 ("T".toList) rfl (by decide),
   claim_C7.2.1 ("# T".toList) 1 ("T".toList) (by decide),
   claim_C7.2.2.1 (⟨[], false, [], []⟩ : ConvState) ("  ".toList) rfl (by decide)⟩

/-- C8: the inline patterns are tried in a fixed priority order (link, code,
    bold with doubled asterisks, bold with doubled underscores, strikethrough,
    italic with single asterisk, italic with single underscore) with the first
    match winning; hence a doubled-asterisk span tokenizes to exactly one
    TextRun with the strong mark and is never parsed as two italic spans. -/
theorem claim_C8 :
    (∀ (s : List Char) (out : TextRun × List Char),
        matchLink s = some out → matchInline s = some out) ∧
      (∀ (s : List Char) (out : TextRun × List Char), matchLink s = none →
        matchCode s = some out → matchInline s = some out) ∧
      (∀ (s : List Char) (out : TextRun × List Char), matchLink s = none →
        matchCode s = none → matchDouble '*' Mark.strong s = some out →
        matchInline s = some out) ∧
      (∀ (s : List Char) (out : TextRun × List Char), matchLink s = none →
        matchCode s = none → matchDouble '*' Mark.strong s = none →
        matchDouble '_' Mark.strong s = some out → matchInline s = some out) ∧
      (∀ (s : List Char) (out : TextRun × List Char), matchLink s = none →
        matchCode s = none → matchDouble '*' Mark.strong s = none →
        matchDouble '_' Mark.strong s = none → matchDouble '~' Mark.strike s = some out →
        matchInline s = some out) ∧
      (∀ (s : List Char) (out : TextRun × List Char), matchLink s = none →
        matchCode s = none → matchDouble '*' Mark.strong s = none →
        matchDouble '_' Mark.strong s = none → matchDouble '~' Mark.strike s = none →
        matchSingle '*' Mark.em s = some out → matchInline s = some out) ∧
      (∀ (s : List Char), matchLink s = none → matchCode s = none →
        matchDouble '*' Mark.strong s = none → matchDouble '_' Mark.strong s = none →
        matchDouble '~' Mark.strike s = none → matchSingle '*' Mark.em s = none →
        matchInline s = matchSingle '_' Mark.em s) ∧
      parseInlineFormatting ("**bold**".toList) = [⟨"bold".toList, [Mark.strong]⟩] :=
  ⟨fun s out h => matchInline_priority1 s out h,
   fun s out h1 h => matchInline_priority2 s out h1 h,
   fun s out h1 h2 h => matchInline_priority3 s out h1 h2 h,
   fun s out h1 h2 h3 h => matchInline_priority4 s out h1 h2 h3 h,
   fun s out h1 h2 h3 h4 h => matchInline_priority5 s out h1 h2 h3 h4 h,
   fun s out h1 h2 h3 h4 h5 h => matchInline_priority6 s out h1 h2 h3 h4 h5 h,
   fun s h1 h2 h3 h4 h5 h6 => matchInline_priority7 s h1 h2 h3 h4 h5 h6,
   by decide⟩

theorem claim_C8_witness :
    matchInline ("[a](b)".toList) = some (⟨"a".toList, [Mark.link ("b".toList)]⟩, []) ∧
    matchInline ("`c`".toList) = some (⟨"c".toList, [Mark.code]⟩, []) ∧
    matchInline ("**b**".toList) = some (⟨"b".toList, [Mark.strong]⟩, []) ∧
    matchInline ("__b__".toList) = some (⟨"b".toList, [Mark.strong]⟩, []) ∧
    matchInline ("~~b~~".toList) = some (⟨"b".toList, [Mark.strike]⟩, []) ∧
    matchInline ("*i*".toList) = some (⟨"i".toList, [Mark.em]⟩, []) ∧
    matchInline ("_i_".toList) = matchSingle '_' Mark.em ("_i_".toList) :=
  ⟨claim_C8.1 ("[a](b)".toList) _ (by decide),
   claim_C8.2.1 ("`c`".toList) _ (by decide) (by decide),
   claim_C8.2.2.1 ("**b**".toList) _ (by decide) (by decide) (by decide),
   claim_C8.2.2.2.1 ("__b__".toList) _ (by decide) (by decide) (by decide) (by decide),
   claim_C8.2.2.2.2.1 ("~~b~~".toList) _ (by decide) (by decide) (by decide) (by decide)
     (by decide),
   claim_C8.2.2.2.2.2.1 ("*i*".toList) _ (by decide) (by decide) (by decide) (by decide)
     (by decide) (by decide),
   claim_C8.2.2.2.2.2.2.1 ("_i_".toList) (by decide) (by decide) (by decide) (by decide)
     (by decide) (by decide)⟩

/-- C9: every TextRun produced by the inline tokenizer carries at most one
    mark: plain text carries none and a matched span carries exactly one mark
    (the link constructor itself carries exactly one href); marks are never
    combined on a single run. -/
theorem claim_C9 (line : List Char) (r : TextRun) (hr : r ∈ parseInlineFormatting line) :
    r.marks = [] ∨ ∃ m, r.marks = [m] :=
  parse_single_mark line r hr

theorem claim_C9_witness :
    (⟨"b".toList, [Mark.strong]⟩ : TextRun).marks = [] ∨
      ∃ m, (⟨"b".toList, [Mark.strong]⟩ : TextRun).marks = [m] :=
  claim_C9 ("**b**".toList) (⟨"b".toList, [Mark.strong]⟩ : TextRun) (by decide)

/-- C10: if the input ends inside an open code block with an empty buffer, for
    example when the input is exactly one opening fence, convert emits no
    final codeBlock node, and when additionally the accumulator is empty the
    result is the single empty-paragraph document. -/
theorem claim_C10 (s : List Char)
    (h1 : (processLines initState (splitLines s)).inCodeBlock = true)
    (h2 : (processLines initState (splitLines s)).codeBlockLines = []) :
    convertContent s = (processLines initState (splitLines s)).content ∧
      ((processLines initState (splitLines s)).content = [] →
        (textToADF s).content = [ADFBlock.paragraph []]) :=
  convert_emptyBuffer s h1 h2

theorem claim_C10_witness :
    (textToADF ("```".toList)).content = [ADFBlock.paragraph []] :=
  (claim_C10 ("```".toList) (by decide) (by decide)).2 (by decide)
